import Mathlib

/-
Verification of the Code Lantern analyzer core (backend/core/analyzer.py).

The tree-sitter syntax tree is modelled as the inductive type Node: every
node carries its type tag (a string, as tree-sitter exposes it), its byte
span [startByte, endByte) into the source text, its start and end rows
(0-indexed, as in tree-sitter points), and its list of children.  Children
are a mutually inductive NodeList so that all recursive tree walks are
structural and kernel-reducible.  Source text is a Lean String; the Python
slice code[a:b] is modelled as a character slice of the underlying list,
which matches the Python code for the offsets tree-sitter hands it.

Python sets of strings (the call sets) are modelled as deduplicated lists:
membership and deduplication agree with the Python set; iteration order of
a CPython set is unspecified, so no claim below depends on list order of a
call set.  Python dicts are modelled as assignment logs (lists of pairs in
assignment order) read back by a fold in which a later assignment to a key
overwrites an earlier one, matching dict semantics.  Exceptions never
escape the modelled fragment (read errors are caught in read_file and all
other failures return None), so fallible operations return Option.
External collaborators are parameters: the filesystem is a function from
path to Option String (none meaning the open call raises), the tree-sitter
parse step is a function from grammar and source to Node, and
os.path.relpath is an oracle parameter.
-/

mutual

inductive Node where
  | mk (ty : String) (startByte endByte startRow endRow : Nat) (children : NodeList)

inductive NodeList where
  | nil
  | cons (hd : Node) (tl : NodeList)

end

def Node.ty : Node → String
  | .mk t _ _ _ _ _ => t

def Node.startByte : Node → Nat
  | .mk _ a _ _ _ _ => a

def Node.endByte : Node → Nat
  | .mk _ _ b _ _ _ => b

def Node.startRow : Node → Nat
  | .mk _ _ _ r _ _ => r

def Node.endRow : Node → Nat
  | .mk _ _ _ _ r _ => r

def Node.children : Node → NodeList
  | .mk _ _ _ _ _ cs => cs

def NodeList.toList : NodeList → List Node
  | .nil => []
  | .cons n ns => n :: ns.toList

def NodeList.ofList : List Node → NodeList
  | [] => .nil
  | n :: ns => .cons n (NodeList.ofList ns)

mutual

/-- Pre-order listing of all nodes of a subtree (the node itself first, then
the subtrees of its children left to right).  This is the visit order of
every walk helper in analyzer.py. -/
def preorder : Node → List Node
  | .mk t a b c d cs => .mk t a b c d cs :: preorderL cs

/-- Pre-order listing of a forest, used by preorder. -/
def preorderL : NodeList → List Node
  | .nil => []
  | .cons n ns => preorder n ++ preorderL ns

end

mutual

/-- Generic pre-order collector: the walk functions of analyzer.py all
visit a node, contribute some items, and recurse into all children; this
captures that shape once, with the per-node contribution as a parameter. -/
def preorderCollect {α : Type} (f : Node → List α) : Node → List α
  | .mk t a b c d cs => f (.mk t a b c d cs) ++ preorderCollectL f cs

/-- Forest version of preorderCollect. -/
def preorderCollectL {α : Type} (f : Node → List α) : NodeList → List α
  | .nil => []
  | .cons n ns => preorderCollect f n ++ preorderCollectL f ns

end

/-- get_node_text (analyzer.py line 124): code[node.start_byte : node.end_byte]. -/
def get_node_text (src : String) (n : Node) : String :=
  String.mk ((src.data.drop n.startByte).take (n.endByte - n.startByte))

-- -------------------------------
-- Python string helpers used by the analyzer
-- -------------------------------

/-- The characters Python str.strip() removes (ASCII whitespace). -/
def pyWhitespaceChars : List Char := [' ', '\t', '\n', '\r', '\x0B', '\x0C']

def isPySpace (c : Char) : Bool := pyWhitespaceChars.contains c

/-- Python str.strip() with no argument: drop whitespace from both ends. -/
def pyStrip (l : List Char) : List Char :=
  ((l.dropWhile isPySpace).reverse.dropWhile isPySpace).reverse

/-- Python str.split(sep) for a one-character separator: all fields, in
order, empty fields kept. -/
def splitChar (c : Char) : List Char → List (List Char)
  | [] => [[]]
  | x :: xs =>
    let r := splitChar c xs
    if x = c then [] :: r
    else (x :: r.headD []) :: r.tail

/-- Python str.strip(chars): drop any of the given characters from both
ends (used for the include-path strip with the set of quote and angle
bracket characters). -/
def pyStripChars (bad : List Char) (l : List Char) : List Char :=
  ((l.dropWhile (fun c => bad.contains c)).reverse.dropWhile
    (fun c => bad.contains c)).reverse

/-- The basename of a POSIX path: everything after the last slash. -/
def pyBasename (p : List Char) : List Char :=
  (p.reverse.takeWhile (fun c => c ≠ '/')).reverse

/-- Extension part of os.path.splitext: the suffix of the basename starting
at its last dot, provided that dot is preceded inside the basename by at
least one non-dot character (so dotfiles like .bashrc have no extension). -/
def pySplitextExt (p : List Char) : List Char :=
  let b := pyBasename p
  let lead := (b.takeWhile (fun c => c = '.')).length
  let rest := b.drop lead
  if rest.contains '.' then '.' :: (rest.reverse.takeWhile (fun c => c ≠ '.')).reverse
  else []

/-- os.path.splitext(path)[1].lower(), the expression analyzer.py applies
to every path before the extension tables. -/
def pyExtLower (path : String) : String :=
  String.mk ((pySplitextExt path.data).map Char.toLower)

-- -------------------------------
-- Static tables (analyzer.py lines 42-79)
-- -------------------------------

/-- SUPPORTED_EXTENSIONS (analyzer.py line 42): extension to reported
language name.  A dict with distinct keys, modelled as an association
list. -/
def SUPPORTED_EXTENSIONS : List (String × String) :=
  [(".py", "python"), (".js", "javascript"), (".ts", "typescript"),
   (".tsx", "typescript"), (".jsx", "javascript"), (".java", "java"),
   (".cpp", "cpp"), (".cc", "cpp"), (".cxx", "cpp"), (".h", "cpp"),
   (".hpp", "cpp"), (".rs", "rust")]

/-- Lookup in SUPPORTED_EXTENSIONS with default, i.e. the Python
SUPPORTED_EXTENSIONS.get(ext, "unknown"). -/
def supportedExtGet (ext : String) : Option String :=
  (SUPPORTED_EXTENSIONS.find? (fun p => p.1 == ext)).map (fun p => p.2)

/-- COMPLEXITY_NODE_TYPES (analyzer.py line 58).  The Python value is a
set literal; duplicate entries across the per-language groups are kept
here verbatim, which leaves membership unchanged. -/
def COMPLEXITY_NODE_TYPES : List String :=
  ["if_statement", "elif_clause", "for_statement", "while_statement",
   "try_statement", "except_clause", "with_statement",
   "conditional_expression",
   "boolean_operator",
   "list_comprehension", "dictionary_comprehension", "set_comprehension",
   "generator_expression",
   "if_statement", "for_statement", "for_in_statement", "while_statement",
   "do_statement", "switch_case", "catch_clause", "ternary_expression",
   "binary_expression",
   "if_statement", "for_statement", "enhanced_for_statement", "while_statement",
   "do_statement", "catch_clause", "switch_expression",
   "if_statement", "for_statement", "while_statement", "do_statement",
   "catch_clause", "case_statement",
   "if_expression", "for_expression", "while_expression", "loop_expression",
   "match_arm"]

/-- The short-circuit operator spellings tested inside the
binary_expression branch of calculate_complexity. -/
def shortCircuitOps : List String := ["&&", "||", "and", "or"]

-- -------------------------------
-- Cyclomatic complexity (analyzer.py lines 133-167)
-- -------------------------------

/-- The child loop of the binary_expression case of calculate_complexity:
scan the children in order; at the first child whose type or text is a
short-circuit operator add one and stop; if none qualifies add nothing. -/
def binOpLoop (src : String) : List Node → Nat
  | [] => 0
  | child :: rest =>
    if child.ty ∈ shortCircuitOps then 1
    else if get_node_text src child ∈ shortCircuitOps then 1
    else binOpLoop src rest

/-- The amount a single visited node adds to the complexity counter in
calculate_complexity: nodes outside COMPLEXITY_NODE_TYPES add nothing; a
binary_expression adds via binOpLoop; boolean_operator and every other
listed type add one. -/
def nodeIncrement (src : String) (n : Node) : Nat :=
  if n.ty ∈ COMPLEXITY_NODE_TYPES then
    if n.ty = "binary_expression" then binOpLoop src n.children.toList
    else if n.ty = "boolean_operator" then 1
    else 1
  else 0

mutual

/-- The total added to the nonlocal complexity counter by walk(node): the
per-node increments accumulated over the pre-order traversal. -/
def walkComplexity (src : String) : Node → Nat
  | .mk t a b c d cs => nodeIncrement src (.mk t a b c d cs) + walkComplexityL src cs

/-- Forest version of walkComplexity. -/
def walkComplexityL (src : String) : NodeList → Nat
  | .nil => 0
  | .cons n ns => walkComplexity src n + walkComplexityL src ns

end

/-- calculate_complexity (analyzer.py line 133): base complexity 1 plus
the walk total.  The lang parameter is unused, as in the source. -/
def calculate_complexity (src lang : String) (n : Node) : Nat :=
  1 + walkComplexity src n

-- -------------------------------
-- Function detail extraction (analyzer.py lines 174-279)
-- -------------------------------

structure FunctionRecord where
  functionName : String
  name : String
  parameters : List String
  returnType : String
  complexity : Nat
  startLine : Nat
  endLine : Nat
  lines : Int
  code : String
  calls : List String
deriving DecidableEq, Repr

/-- Rendering of one Python parameter (analyzer.py lines 193-203): with a
colon render name and type (type cut at an equals sign), with an equals
sign render name=..., otherwise the raw text. -/
def pyParamRender (t : String) : String :=
  if t.data.contains ':' then
    let parts := splitChar ':' t.data
    let pname := pyStrip (parts.headD [])
    let ptype := pyStrip ((splitChar '=' (pyStrip ((parts.drop 1).headD []))).headD [])
    String.mk (pname ++ (": ").data ++ ptype)
  else if t.data.contains '=' then
    String.mk (pyStrip ((splitChar '=' t.data).headD []) ++ ("=...").data)
  else t

/-- State threaded through the child loops of extract_function_details:
function name so far, parameters so far, return type so far. -/
abbrev DetailState := String × List String × Option String

/-- One step of the Python branch of extract_function_details. -/
def pyDetailsStep (src : String) (acc : DetailState) (child : Node) : DetailState :=
  if child.ty = "identifier" then (get_node_text src child, acc.2.1, acc.2.2)
  else if child.ty = "parameters" then
    (acc.1,
     acc.2.1 ++ child.children.toList.filterMap (fun p =>
       if p.ty ∈ ["identifier", "typed_parameter", "default_parameter"]
       then some (pyParamRender (get_node_text src p)) else none),
     acc.2.2)
  else if child.ty = "type" then (acc.1, acc.2.1, some (get_node_text src child))
  else acc

/-- One step of the JavaScript branch of extract_function_details. -/
def jsDetailsStep (src : String) (acc : DetailState) (child : Node) : DetailState :=
  if child.ty = "identifier" then (get_node_text src child, acc.2.1, acc.2.2)
  else if child.ty = "formal_parameters" then
    (acc.1,
     acc.2.1 ++ child.children.toList.filterMap (fun p =>
       if p.ty ∈ ["identifier", "assignment_pattern", "rest_pattern"]
       then some (get_node_text src p) else none),
     acc.2.2)
  else acc

/-- One step of the Java branch of extract_function_details. -/
def javaDetailsStep (src : String) (acc : DetailState) (child : Node) : DetailState :=
  if child.ty = "identifier" then (get_node_text src child, acc.2.1, acc.2.2)
  else if child.ty = "formal_parameters" then
    (acc.1,
     acc.2.1 ++ child.children.toList.filterMap (fun p =>
       if p.ty = "formal_parameter" then some (get_node_text src p) else none),
     acc.2.2)
  else if child.ty ∈ ["type_identifier", "generic_type", "void_type"] then
    (acc.1, acc.2.1, some (get_node_text src child))
  else acc

/-- The inner loop over the children of a function_declarator in the C++
branch of extract_function_details. -/
def cppDeclaratorStep (src : String) (acc : DetailState) (sub : Node) : DetailState :=
  if sub.ty = "identifier" then (get_node_text src sub, acc.2.1, acc.2.2)
  else if sub.ty = "parameter_list" then
    (acc.1,
     acc.2.1 ++ sub.children.toList.filterMap (fun p =>
       if p.ty = "parameter_declaration" then some (get_node_text src p) else none),
     acc.2.2)
  else acc

/-- One step of the C++ branch of extract_function_details. -/
def cppDetailsStep (src : String) (acc : DetailState) (child : Node) : DetailState :=
  if child.ty = "function_declarator" then
    child.children.toList.foldl (cppDeclaratorStep src) acc
  else if child.ty ∈ ["type_identifier", "primitive_type"] then
    (acc.1, acc.2.1, some (get_node_text src child))
  else acc

/-- One step of the Rust branch of extract_function_details. -/
def rustDetailsStep (src : String) (acc : DetailState) (child : Node) : DetailState :=
  if child.ty = "identifier" then (get_node_text src child, acc.2.1, acc.2.2)
  else if child.ty = "parameters" then
    (acc.1,
     acc.2.1 ++ child.children.toList.filterMap (fun p =>
       if p.ty = "parameter" then some (get_node_text src p) else none),
     acc.2.2)
  else if child.ty = "type_identifier" then (acc.1, acc.2.1, some (get_node_text src child))
  else acc

/-- extract_function_details (analyzer.py line 174): derive name,
parameters and return type from the direct children according to the
language, then assemble the record with complexity, 1-indexed line span,
verbatim source slice and an empty calls list. -/
def extract_function_details (src lang filePath : String) (n : Node) : FunctionRecord :=
  let init : DetailState := ("", [], none)
  let res : DetailState :=
    if lang = "py" then n.children.toList.foldl (pyDetailsStep src) init
    else if lang = "js" then n.children.toList.foldl (jsDetailsStep src) init
    else if lang = "java" then n.children.toList.foldl (javaDetailsStep src) init
    else if lang = "cpp" then n.children.toList.foldl (cppDetailsStep src) init
    else if lang = "rust" then n.children.toList.foldl (rustDetailsStep src) init
    else init
  let startLine := n.startRow + 1
  let endLine := n.endRow + 1
  { functionName := filePath ++ "-" ++ res.1
    name := res.1
    parameters := res.2.1
    returnType :=
      match res.2.2 with
      | some s => if s = "" then "unknown" else s
      | none => "unknown"
    complexity := calculate_complexity src lang n
    startLine := startLine
    endLine := endLine
    lines := (endLine : Int) - (startLine : Int) + 1
    code := get_node_text src n
    calls := [] }

-- -------------------------------
-- Function call extraction (analyzer.py lines 286-354)
-- -------------------------------

/-- The builtins denylist of extract_function_calls (analyzer.py line 294).
A Python set literal; duplicates across the language groups are kept
verbatim, which leaves membership unchanged. -/
def builtins : List String :=
  ["print", "len", "str", "int", "float", "list", "dict", "set", "tuple",
   "range", "open", "type", "isinstance", "hasattr", "getattr", "setattr",
   "super", "map", "filter", "zip", "enumerate", "sorted", "reversed",
   "min", "max", "sum", "abs", "round", "format", "input", "bool", "bytes",
   "console", "require", "import", "export", "setTimeout", "setInterval",
   "clearTimeout", "clearInterval", "fetch", "Promise", "Array", "Object",
   "String", "Number", "Boolean", "JSON", "Math", "Date", "RegExp", "Error",
   "System", "println", "print", "new", "toString", "equals", "hashCode",
   "std", "cout", "cin", "printf", "scanf", "sizeof", "malloc", "free",
   "println", "print", "vec", "Some", "None", "Ok", "Err", "Box", "Rc", "Arc",
   "if", "for", "while", "switch", "catch", "match"]

/-- The names one visited node adds to the call set in the walk of
extract_function_calls.  A call_expression whose callee child is a bare
identifier records it unless it is a builtin or excluded; a
member_expression callee records its property_identifier children that are
not builtins, with no exclusion check.  A Python call node records a bare
identifier callee the same way; an attribute callee records the first
direct identifier child that is not a builtin, again with no exclusion
check. -/
def callContrib (src : String) (excludeNames : List String) (n : Node) : List String :=
  if n.ty = "call_expression" then
    match n.children.toList with
    | [] => []
    | funcNode :: _ =>
      if funcNode.ty = "identifier" then
        let fname := get_node_text src funcNode
        if fname ∉ builtins ∧ fname ∉ excludeNames then [fname] else []
      else if funcNode.ty = "member_expression" then
        ((funcNode.children.toList.filter (fun c => c.ty == "property_identifier")).map
          (get_node_text src)).filter (fun m => !builtins.contains m)
      else []
  else if n.ty = "call" then
    match n.children.toList with
    | [] => []
    | funcNode :: _ =>
      if funcNode.ty = "identifier" then
        let fname := get_node_text src funcNode
        if fname ∉ builtins ∧ fname ∉ excludeNames then [fname] else []
      else if funcNode.ty = "attribute" then
        match funcNode.children.toList.find? (fun c =>
            c.ty == "identifier" && !builtins.contains (get_node_text src c)) with
        | some c => [get_node_text src c]
        | none => []
      else []
  else []

/-- Only the member_expression and attribute (method call) branches of
callContrib, with the identical builtin filtering.  Isolated so theorems
can say which names can only come from a method call. -/
def methodCallContrib (src : String) (n : Node) : List String :=
  (if n.ty = "call_expression" then
    match n.children.toList with
    | [] => []
    | funcNode :: _ =>
      if funcNode.ty = "member_expression" then
        ((funcNode.children.toList.filter (fun c => c.ty == "property_identifier")).map
          (get_node_text src)).filter (fun m => !builtins.contains m)
      else []
  else []) ++
  (if n.ty = "call" then
    match n.children.toList with
    | [] => []
    | funcNode :: _ =>
      if funcNode.ty = "attribute" then
        match funcNode.children.toList.find? (fun c =>
            c.ty == "identifier" && !builtins.contains (get_node_text src c)) with
        | some c => [get_node_text src c]
        | none => []
      else []
  else [])

/-- extract_function_calls (analyzer.py line 286): pre-order walk
collecting callContrib into a set, returned as list(calls).  The set is
modelled as the deduplicated collection list; membership agrees with the
Python set, list order of the result carries no meaning. -/
def extract_function_calls (src : String) (excludeNames : List String) (n : Node) :
    List String :=
  (preorderCollect (callContrib src excludeNames) n).dedup

-- -------------------------------
-- Detailed function extraction (analyzer.py lines 470-500)
-- -------------------------------

/-- function_types (analyzer.py line 478): which node types denote a
function definition, per language tag, empty for unknown tags. -/
def function_types (lang : String) : List String :=
  if lang = "py" then ["function_definition"]
  else if lang = "js" then
    ["function_declaration", "arrow_function", "function_expression", "method_definition"]
  else if lang = "java" then ["method_declaration", "constructor_declaration"]
  else if lang = "cpp" then ["function_definition"]
  else if lang = "rust" then ["function_item"]
  else []

/-- The per-node step of the walk in extract_functions_detailed: at a node
whose type is a function type, build the details; keep the record only
when a name was found, filling its calls with extract_function_calls run
on the same node excluding that name. -/
def functionRecordsAt (src lang filePath : String) (n : Node) : List FunctionRecord :=
  if n.ty ∈ function_types lang then
    let d := extract_function_details src lang filePath n
    if d.name ≠ "" then
      [{ d with calls := extract_function_calls src [d.name] n }]
    else []
  else []

/-- extract_functions_detailed (analyzer.py line 470): pre-order walk from
the root appending a record at every named function definition node,
nested definitions included. -/
def extract_functions_detailed (src lang filePath : String) (root : Node) :
    List FunctionRecord :=
  preorderCollect (functionRecordsAt src lang filePath) root

-- -------------------------------
-- Import extraction (analyzer.py lines 361-463)
-- -------------------------------

/-- code[child.start_byte + 1 : child.end_byte - 1], the quote-stripping
slice used on string literal nodes by the JS import extractor. -/
def stripQuotesSlice (src : String) (n : Node) : String :=
  String.mk ((src.data.drop (n.startByte + 1)).take (n.endByte - 1 - (n.startByte + 1)))

/-- Per-node contribution of the walk in extract_js_imports: string
children of an import_statement, and the string argument of a
require(...) call. -/
def jsImportContrib (src : String) (n : Node) : List String :=
  (if n.ty = "import_statement" then
    (n.children.toList.filter (fun c => c.ty == "string")).map (stripQuotesSlice src)
  else []) ++
  (if n.ty = "call_expression" then
    match n.children.toList with
    | c0 :: c1 :: _ =>
      if c0.ty = "identifier" ∧ get_node_text src c0 = "require" then
        if c1.ty = "arguments" then
          match c1.children.toList with
          | _ :: modNode :: _ =>
            if modNode.ty = "string" then [stripQuotesSlice src modNode] else []
          | _ => []
        else []
      else []
    | _ => []
  else [])

/-- extract_js_imports (analyzer.py line 361). -/
def extract_js_imports (src : String) (root : Node) : List String :=
  preorderCollect (jsImportContrib src) root

/-- Per-node contribution of the walk in extract_py_imports: dotted_name
or identifier children of an import_statement, and the second child of an
import_from_statement. -/
def pyImportContrib (src : String) (n : Node) : List String :=
  (if n.ty = "import_statement" then
    (n.children.toList.filter (fun c => c.ty == "dotted_name" || c.ty == "identifier")).map
      (get_node_text src)
  else []) ++
  (if n.ty = "import_from_statement" then
    match n.children.toList with
    | _ :: c1 :: _ => [get_node_text src c1]
    | _ => []
  else [])

/-- extract_py_imports (analyzer.py line 389). -/
def extract_py_imports (src : String) (root : Node) : List String :=
  preorderCollect (pyImportContrib src) root

/-- Per-node contribution of the walk in extract_java_imports. -/
def javaImportContrib (src : String) (n : Node) : List String :=
  if n.ty = "import_declaration" then
    (n.children.toList.filter
      (fun c => c.ty == "scoped_identifier" || c.ty == "identifier")).map (get_node_text src)
  else []

/-- extract_java_imports (analyzer.py line 411). -/
def extract_java_imports (src : String) (root : Node) : List String :=
  preorderCollect (javaImportContrib src) root

/-- Per-node contribution of the walk in extract_cpp_imports: include
arguments with quotes and angle brackets stripped from both ends. -/
def cppImportContrib (src : String) (n : Node) : List String :=
  if n.ty = "preproc_include" then
    (n.children.toList.filter
      (fun c => c.ty == "string_literal" || c.ty == "system_lib_string")).map
      (fun c => String.mk (pyStripChars ['"', '<', '>'] (get_node_text src c).data))
  else []

/-- extract_cpp_imports (analyzer.py line 428). -/
def extract_cpp_imports (src : String) (root : Node) : List String :=
  preorderCollect (cppImportContrib src) root

/-- Per-node contribution of the walk in extract_rust_imports. -/
def rustImportContrib (src : String) (n : Node) : List String :=
  if n.ty = "use_declaration" then
    n.children.toList.flatMap (fun c =>
      if c.ty = "scoped_identifier" ∨ c.ty = "identifier" then [get_node_text src c]
      else if c.ty = "use_list" then [get_node_text src c]
      else [])
  else []

/-- extract_rust_imports (analyzer.py line 446). -/
def extract_rust_imports (src : String) (root : Node) : List String :=
  preorderCollect (rustImportContrib src) root

-- -------------------------------
-- Language detection and the global parser (analyzer.py lines 22-23, 94-121)
-- -------------------------------

/-- The five grammars the analyzer can load (one per registered
tree-sitter language module). -/
inductive TSLang where
  | js
  | py
  | java
  | cpp
  | rust
deriving DecidableEq, Repr

/-- The module-global tree-sitter parser (analyzer.py line 23): its only
observable configuration is which grammar is currently assigned to its
language attribute. -/
structure ParserState where
  language : Option TSLang
deriving DecidableEq, Repr

/-- detect_language (analyzer.py line 94). -/
def detect_language (path : String) : Option String :=
  let ext := pyExtLower path
  if ext ∈ [".js", ".jsx", ".ts", ".tsx"] then some "js"
  else if ext ∈ [".py"] then some "py"
  else if ext ∈ [".java"] then some "java"
  else if ext ∈ [".cpp", ".cc", ".cxx", ".h", ".hpp"] then some "cpp"
  else if ext ∈ [".rs"] then some "rust"
  else none

/-- get_language_for_parser (analyzer.py line 109): the capsule table has
exactly the five entries below and no TypeScript entry; any other tag
yields None. -/
def getLanguageForParser (lang : String) : Option TSLang :=
  if lang = "js" then some .js
  else if lang = "py" then some .py
  else if lang = "java" then some .java
  else if lang = "cpp" then some .cpp
  else if lang = "rust" then some .rust
  else none

/-- read_file (analyzer.py line 86): the filesystem oracle returns the
decoded content, or none when open raises, in which case the bare except
returns the empty string. -/
def read_file (fs : String → Option String) (path : String) : String :=
  (fs path).getD ""

/-- Truth of the Python guard "not code.strip()": the content is empty or
all whitespace. -/
def isBlank (s : String) : Bool := s.data.all isPySpace

-- -------------------------------
-- Single file analysis (analyzer.py lines 552-603)
-- -------------------------------

structure FileRecord where
  filePath : String
  language : String
  imports : List String
  listOfFunctions : List FunctionRecord
  totalLines : Nat
  totalFunctions : Nat
deriving DecidableEq, Repr

/-- The import dispatch of analyze_file_detailed (lines 583-594). -/
def importsFor (lang src : String) (root : Node) : List String :=
  if lang = "js" then extract_js_imports src root
  else if lang = "py" then extract_py_imports src root
  else if lang = "java" then extract_java_imports src root
  else if lang = "cpp" then extract_cpp_imports src root
  else if lang = "rust" then extract_rust_imports src root
  else []

/-- analyze_file_detailed (analyzer.py line 552).  parse is the
tree-sitter parse step (a function of the bound grammar and the source),
relpath models os.path.relpath, fs the filesystem.  The ParserState
argument and the first component of the result are the module-global
parser before and after the call: the source assigns
parser.language = language before parsing, so the success path overwrites
the shared state, and every early None return leaves it unchanged.
totalLines is len(code.split(newline)), i.e. newline count plus one. -/
def analyze_file_detailed (parse : TSLang → String → Node)
    (relpath : String → String → String) (fs : String → Option String)
    (st : ParserState) (path basePath : String) : ParserState × Option FileRecord :=
  match detect_language path with
  | none => (st, none)
  | some lang =>
    let code := read_file fs path
    if isBlank code then (st, none)
    else
      match getLanguageForParser lang with
      | none => (st, none)
      | some language =>
        let st2 : ParserState := { language := some language }
        let tree := parse language code
        let relPath := if basePath ≠ "" then relpath path basePath else path
        let functions := extract_functions_detailed code lang relPath tree
        (st2, some {
          filePath := relPath
          language := (supportedExtGet (pyExtLower path)).getD "unknown"
          imports := importsFor lang code tree
          listOfFunctions := functions
          totalLines := code.data.count '\n' + 1
          totalFunctions := functions.length })

-- -------------------------------
-- get_function_code (analyzer.py lines 651-704)
-- -------------------------------

/-- The match test of find_function inside get_function_code: the node
type is a function type and some direct child is an identifier with the
requested text, or a function_declarator having such an identifier
child. -/
def isFnMatch (targets : List String) (src functionName : String) (n : Node) : Bool :=
  targets.contains n.ty &&
  n.children.toList.any (fun child =>
    (child.ty == "identifier" && get_node_text src child == functionName) ||
    (child.ty == "function_declarator" &&
      child.children.toList.any (fun sub =>
        sub.ty == "identifier" && get_node_text src sub == functionName)))

mutual

/-- find_function (analyzer.py line 682): return the text of the current
node when it matches; otherwise search the children left to right. -/
def findFunction (targets : List String) (src functionName : String) : Node → Option String
  | .mk t a b c d cs =>
    if isFnMatch targets src functionName (.mk t a b c d cs)
    then some (get_node_text src (.mk t a b c d cs))
    else findFunctionL targets src functionName cs

/-- The child loop of find_function.  The Python code tests the returned
string for truthiness, so a result that is the empty string is passed
over exactly like None. -/
def findFunctionL (targets : List String) (src functionName : String) :
    NodeList → Option String
  | .nil => none
  | .cons child rest =>
    match findFunction targets src functionName child with
    | some s =>
      if s = "" then findFunctionL targets src functionName rest else some s
    | none => findFunctionL targets src functionName rest

end

/-- get_function_code (analyzer.py line 651), with the same oracles and
global-parser threading as analyze_file_detailed. -/
def get_function_code (parse : TSLang → String → Node) (fs : String → Option String)
    (st : ParserState) (filePath functionName : String) : ParserState × Option String :=
  match detect_language filePath with
  | none => (st, none)
  | some lang =>
    let code := read_file fs filePath
    if isBlank code then (st, none)
    else
      match getLanguageForParser lang with
      | none => (st, none)
      | some language =>
        let st2 : ParserState := { language := some language }
        let tree := parse language code
        (st2, findFunction (function_types lang) code functionName tree)

-- -------------------------------
-- Graph building (analyzer.py lines 745-762)
-- -------------------------------

structure CallEdge where
  source : String
  target : String
  sourceFile : String
  targetFile : String
deriving DecidableEq, Repr

/-- The assignment log of the all_functions dict: one (name, filePath)
assignment per function, files in discovery order, functions in record
order within each file. -/
def fnIndex (files : List FileRecord) : List (String × String) :=
  files.flatMap (fun fd => fd.listOfFunctions.map (fun f => (f.name, fd.filePath)))

/-- Reading a key from an assignment log with dict semantics: replay the
assignments in order, a later assignment to the key overwriting an earlier
one; none when the key was never assigned. -/
def dictGet (entries : List (String × String)) (key : String) : Option String :=
  entries.foldl (fun acc p => if p.1 = key then some p.2 else acc) none

/-- The body of the edge loop of analyze_repo_detailed (lines 755-762) for
one called name: emit an edge exactly when the name is in the dict and its
owner differs from the calling file. -/
def edgeFor (files : List FileRecord) (fd : FileRecord) (f : FunctionRecord)
    (callName : String) : Option CallEdge :=
  match dictGet (fnIndex files) callName with
  | some owner =>
    if owner ≠ fd.filePath then
      some { source := f.functionName, target := owner ++ "-" ++ callName,
             sourceFile := fd.filePath, targetFile := owner }
    else none
  | none => none

/-- The edges list of analyze_repo_detailed (lines 753-762): for every
file, function and called name, in order, the edge edgeFor emits. -/
def buildEdges (files : List FileRecord) : List CallEdge :=
  files.flatMap (fun fd =>
    fd.listOfFunctions.flatMap (fun f => f.calls.filterMap (edgeFor files fd f)))

-- -------------------------------
-- Line ranges of the source text (for the startLine/endLine round trip)
-- -------------------------------

/-- Number of newline characters among the first b characters: the
0-indexed row of the position b, as tree-sitter points count rows. -/
def nlCount (src : List Char) (b : Nat) : Nat := (src.take b).count '\n'

/-- Position of the first character of 0-indexed row r (clamped for rows
past the end of the text). -/
def lineStartPos : List Char → Nat → Nat
  | _, 0 => 0
  | [], _ + 1 => 0
  | ch :: rest, r + 1 =>
    if ch = '\n' then 1 + lineStartPos rest r else 1 + lineStartPos rest (r + 1)

/-- Position one past the last character of 0-indexed row r, i.e. of the
newline ending row r, or the text length when row r is unterminated. -/
def lineEndPos : List Char → Nat → Nat
  | [], _ => 0
  | ch :: rest, 0 => if ch = '\n' then 0 else 1 + lineEndPos rest 0
  | ch :: rest, r + 1 =>
    if ch = '\n' then 1 + lineEndPos rest r else 1 + lineEndPos rest (r + 1)

/-- Modelled from the spec: slicing the original source text by a
1-indexed inclusive line range, i.e. the text from the first character of
startLine through the last character of endLine, interior newlines
included and the trailing newline excluded. -/
def specLineSlice (src : List Char) (startLine endLine : Nat) : List Char :=
  let a := lineStartPos src (startLine - 1)
  let e := lineEndPos src (endLine - 1)
  (src.drop a).take (e - a)

/-- A node counts as a decision node for calculate_complexity when its
type is in COMPLEXITY_NODE_TYPES and, for the binary_expression type, some
direct child has a short-circuit operator as its type or as its text. -/
def IsDecision (src : String) (n : Node) : Prop :=
  n.ty ∈ COMPLEXITY_NODE_TYPES ∧
  (n.ty = "binary_expression" →
    ∃ c ∈ n.children.toList, c.ty ∈ shortCircuitOps ∨ get_node_text src c ∈ shortCircuitOps)

instance (src : String) (n : Node) : Decidable (IsDecision src n) := by
  unfold IsDecision; infer_instance

/-- The number of decision nodes in the whole subtree of a node, counted
over the full pre-order walk (nested function definitions included). -/
def decisionCount (src : String) (n : Node) : Nat :=
  (preorder n).countP (fun m => decide (IsDecision src m))

-- -------------------------------
-- Concrete inputs for the claim theorems
-- -------------------------------

/-- A trivial parse oracle for paths where the tree content is
irrelevant. -/
def parse0 : TSLang → String → Node := fun _ _ => .mk "module" 0 0 0 0 .nil

/-- A trivial relpath oracle (identity on the path). -/
def relp0 : String → String → String := fun p _ => p

/-- An empty filesystem: every open raises. -/
def fs0 : String → Option String := fun _ => none

/-- Python source with one function containing one if statement. -/
def c1Src : String := "def f():\n    if x:\n        pass"

def c1Ident : Node := .mk "identifier" 4 5 0 0 .nil

def c1If : Node := .mk "if_statement" 13 31 1 2 .nil

def c1Block : Node := .mk "block" 13 31 1 2 (.ofList [c1If])

def c1Fdef : Node :=
  .mk "function_definition" 0 31 0 2
    (.ofList [.mk "def" 0 3 0 0 .nil, c1Ident, .mk "parameters" 5 7 0 0 .nil,
              .mk ":" 7 8 0 0 .nil, c1Block])

def c1Tree : Node := .mk "module" 0 31 0 2 (.ofList [c1Fdef])

/-- The record extract_functions_detailed produces for c1Tree. -/
def c1Rec : FunctionRecord :=
  { functionName := "a.py-f", name := "f", parameters := [], returnType := "unknown",
    complexity := 2, startLine := 1, endLine := 3, lines := 3, code := c1Src, calls := [] }

/-- JavaScript source whose function body calls the function itself
through a method call on this. -/
def c2Src : String := "function f(){this.f()}"

def c2Member : Node :=
  .mk "member_expression" 13 19 0 0
    (.ofList [.mk "this" 13 17 0 0 .nil, .mk "." 17 18 0 0 .nil,
              .mk "property_identifier" 18 19 0 0 .nil])

def c2Call : Node :=
  .mk "call_expression" 13 21 0 0 (.ofList [c2Member, .mk "arguments" 19 21 0 0 .nil])

def c2Block : Node :=
  .mk "statement_block" 12 22 0 0
    (.ofList [.mk "\x7b" 12 13 0 0 .nil,
              .mk "expression_statement" 13 21 0 0 (.ofList [c2Call]),
              .mk "\x7d" 21 22 0 0 .nil])

def c2Fdecl : Node :=
  .mk "function_declaration" 0 22 0 0
    (.ofList [.mk "function" 0 8 0 0 .nil, .mk "identifier" 9 10 0 0 .nil,
              .mk "formal_parameters" 10 12 0 0 .nil, c2Block])

def c2Tree : Node := .mk "program" 0 22 0 0 (.ofList [c2Fdecl])

/-- Python source with a one-level attribute call. -/
def c3Src : String := "a.b()"

def c3Attr : Node :=
  .mk "attribute" 0 3 0 0
    (.ofList [.mk "identifier" 0 1 0 0 .nil, .mk "." 1 2 0 0 .nil,
              .mk "identifier" 2 3 0 0 .nil])

def c3Call : Node :=
  .mk "call" 0 5 0 0 (.ofList [c3Attr, .mk "argument_list" 3 5 0 0 .nil])

/-- Python source with a two-level attribute chain call. -/
def c3wSrc : String := "a.b.c()"

def c3wInner : Node :=
  .mk "attribute" 0 3 0 0
    (.ofList [.mk "identifier" 0 1 0 0 .nil, .mk "." 1 2 0 0 .nil,
              .mk "identifier" 2 3 0 0 .nil])

def c3wIdentC : Node := .mk "identifier" 4 5 0 0 .nil

def c3wArgl : Node := .mk "argument_list" 5 7 0 0 .nil

def c3wCall : Node :=
  .mk "call" 0 7 0 0
    (.ofList [.mk "attribute" 0 5 0 0
                (.ofList [c3wInner, .mk "." 3 4 0 0 .nil, c3wIdentC]), c3wArgl])

/-- JavaScript one-line source in which the function definition is
followed by more code on the same line. -/
def c4Src : String := "function f(){return 1} var x=1"

def c4Fdecl : Node :=
  .mk "function_declaration" 0 22 0 0
    (.ofList [.mk "function" 0 8 0 0 .nil, .mk "identifier" 9 10 0 0 .nil,
              .mk "formal_parameters" 10 12 0 0 .nil,
              .mk "statement_block" 12 22 0 0 .nil])

def c4Tree : Node :=
  .mk "program" 0 30 0 0 (.ofList [c4Fdecl, .mk "variable_declaration" 23 30 0 0 .nil])

/-- Python source with an indented function definition on the second
line. -/
def c4wSrc : String := "x=1\n    def g(): pass"

def c4wNode : Node :=
  .mk "function_definition" 8 21 1 1 (.ofList [.mk "identifier" 12 13 1 1 .nil])

/-- Three files, two of which define a function with the same bare name;
the caller lives in the first file. -/
def c5CallerFn : FunctionRecord :=
  { functionName := "a.py-g", name := "g", parameters := [], returnType := "unknown",
    complexity := 1, startLine := 1, endLine := 1, lines := 1,
    code := "def g(): helper()", calls := ["helper"] }

def c5HelperB : FunctionRecord :=
  { functionName := "b.py-helper", name := "helper", parameters := [],
    returnType := "unknown", complexity := 1, startLine := 1, endLine := 1, lines := 1,
    code := "def helper(): pass", calls := [] }

def c5HelperC : FunctionRecord :=
  { functionName := "c.py-helper", name := "helper", parameters := [],
    returnType := "unknown", complexity := 1, startLine := 1, endLine := 1, lines := 1,
    code := "def helper(): pass", calls := [] }

def c5Files : List FileRecord :=
  [{ filePath := "a.py", language := "python", imports := [],
     listOfFunctions := [c5CallerFn], totalLines := 1, totalFunctions := 1 },
   { filePath := "b.py", language := "python", imports := [],
     listOfFunctions := [c5HelperB], totalLines := 1, totalFunctions := 1 },
   { filePath := "c.py", language := "python", imports := [],
     listOfFunctions := [c5HelperC], totalLines := 1, totalFunctions := 1 }]

/-- The single edge buildEdges emits for c5Files: its target is owned by
the last-written owner of the duplicated name. -/
def c5Edge : CallEdge :=
  { source := "a.py-g", target := "c.py-helper", sourceFile := "a.py", targetFile := "c.py" }

/-- Two files for the cross-file-only edge claim: the caller calls a
cross-file name, itself, and an unknown name. -/
def c6CallerFn : FunctionRecord :=
  { functionName := "x.py-p", name := "p", parameters := [], returnType := "unknown",
    complexity := 1, startLine := 1, endLine := 1, lines := 1,
    code := "def p(): q()", calls := ["q", "p", "zzz"] }

def c6CalleeFn : FunctionRecord :=
  { functionName := "y.py-q", name := "q", parameters := [], returnType := "unknown",
    complexity := 1, startLine := 1, endLine := 1, lines := 1,
    code := "def q(): pass", calls := [] }

def c6FileX : FileRecord :=
  { filePath := "x.py", language := "python", imports := [],
    listOfFunctions := [c6CallerFn], totalLines := 1, totalFunctions := 1 }

def c6FileY : FileRecord :=
  { filePath := "y.py", language := "python", imports := [],
    listOfFunctions := [c6CalleeFn], totalLines := 1, totalFunctions := 1 }

def c6Files : List FileRecord := [c6FileX, c6FileY]

def c6Edge : CallEdge :=
  { source := "x.py-p", target := "y.py-q", sourceFile := "x.py", targetFile := "y.py" }

/-- A Python file with two same-named functions, for the first-match
behavior of get_function_code. -/
def c8Src : String := "def g(): return 1\ndef g(): return 2"

def c8Fd1 : Node :=
  .mk "function_definition" 0 17 0 0 (.ofList [.mk "identifier" 4 5 0 0 .nil])

def c8Fd2 : Node :=
  .mk "function_definition" 18 35 1 1 (.ofList [.mk "identifier" 22 23 1 1 .nil])

def c8Tree : Node := .mk "module" 0 35 0 1 (.ofList [c8Fd1, c8Fd2])

/-- A filesystem holding one small Python file. -/
def fs9 : String → Option String := fun p => if p = "a.py" then some "x = 1" else none

/-- A filesystem holding one small TypeScript file. -/
def fs10 : String → Option String :=
  fun p => if p = "app.ts" then some "let x = 1" else none

/-- The record analyze_file_detailed produces for app.ts under fs10 and
parse0. -/
def fr10 : FileRecord :=
  { filePath := "app.ts", language := "typescript", imports := [],
    listOfFunctions := [], totalLines := 1, totalFunctions := 0 }

/-- Shape of edgeFor when the called name resolves to an owner. -/
theorem edgeFor_some (files : List FileRecord) (fd : FileRecord) (f : FunctionRecord)
    (callName owner : String) (hd : dictGet (fnIndex files) callName = some owner) :
    edgeFor files fd f callName
      = if owner ≠ fd.filePath then
          some { source := f.functionName, target := owner ++ "-" ++ callName,
                 sourceFile := fd.filePath, targetFile := owner }
        else none := by
  unfold edgeFor
  rw [hd]

/-- Shape of analyze_file_detailed on its success path. -/
theorem analyze_file_detailed_success (parse : TSLang → String → Node)
    (relpath : String → String → String) (fs : String → Option String)
    (st : ParserState) (path basePath lang : String) (language : TSLang)
    (hdet : detect_language path = some lang)
    (hgram : getLanguageForParser lang = some language)
    (hb : isBlank (read_file fs path) = false) :
    analyze_file_detailed parse relpath fs st path basePath
      = ({ language := some language },
         some { filePath := if basePath ≠ "" then relpath path basePath else path
                language := (supportedExtGet (pyExtLower path)).getD "unknown"
                imports := importsFor lang (read_file fs path)
                  (parse language (read_file fs path))
                listOfFunctions := extract_functions_detailed (read_file fs path) lang
                  (if basePath ≠ "" then relpath path basePath else path)
                  (parse language (read_file fs path))
                totalLines := (read_file fs path).data.count '\n' + 1
                totalFunctions := (extract_functions_detailed (read_file fs path) lang
                  (if basePath ≠ "" then relpath path basePath else path)
                  (parse language (read_file fs path))).length }) := by
  simp [analyze_file_detailed, hdet, hgram, hb]

-- -------------------------------
-- Theorems: basic lemmas about the model
-- -------------------------------

theorem NodeList.toList_ofList (l : List Node) : (NodeList.ofList l).toList = l := by
  induction l with
  | nil => rfl
  | cons n ns ih => simp [NodeList.ofList, NodeList.toList, ih]

-- -------------------------------
-- Master lemmas about the walks
-- -------------------------------

mutual

theorem preorderCollect_eq {α : Type} (f : Node → List α) (n : Node) :
    preorderCollect f n = (preorder n).flatMap f := by
  match n with
  | .mk t a b c d cs =>
    rw [preorderCollect, preorder]
    simp [preorderCollectL_eq f cs]

theorem preorderCollectL_eq {α : Type} (f : Node → List α) (cs : NodeList) :
    preorderCollectL f cs = (preorderL cs).flatMap f := by
  match cs with
  | .nil => rw [preorderCollectL, preorderL]; simp
  | .cons n ns =>
    rw [preorderCollectL, preorderL]
    simp [preorderCollect_eq f n, preorderCollectL_eq f ns]

end

mutual

theorem walkComplexity_eq (src : String) (n : Node) :
    walkComplexity src n = ((preorder n).map (nodeIncrement src)).sum := by
  match n with
  | .mk t a b c d cs =>
    rw [walkComplexity, preorder]
    simp [walkComplexityL_eq src cs]

theorem walkComplexityL_eq (src : String) (cs : NodeList) :
    walkComplexityL src cs = ((preorderL cs).map (nodeIncrement src)).sum := by
  match cs with
  | .nil => rw [walkComplexityL, preorderL]; simp
  | .cons n ns =>
    rw [walkComplexityL, preorderL]
    simp [walkComplexity_eq src n, walkComplexityL_eq src ns]

end

theorem binOpLoop_eq_ite (src : String) (l : List Node) :
    binOpLoop src l =
      if ∃ c ∈ l, c.ty ∈ shortCircuitOps ∨ get_node_text src c ∈ shortCircuitOps
      then 1 else 0 := by
  induction l with
  | nil => simp [binOpLoop]
  | cons child rest ih =>
    rw [binOpLoop]
    by_cases h1 : child.ty ∈ shortCircuitOps
    · simp [h1]
    · by_cases h2 : get_node_text src child ∈ shortCircuitOps
      · simp [h1, h2]
      · simp only [h1, h2, if_false, ih]
        by_cases h3 : ∃ c ∈ rest, c.ty ∈ shortCircuitOps ∨ get_node_text src c ∈ shortCircuitOps
        · simp [h3, h1, h2]
        · simp [h3, h1, h2]

theorem nodeIncrement_eq_ite (src : String) (n : Node) :
    nodeIncrement src n = if IsDecision src n then 1 else 0 := by
  unfold nodeIncrement IsDecision
  by_cases hty : n.ty ∈ COMPLEXITY_NODE_TYPES
  · simp only [hty, if_true, true_and]
    by_cases hbin : n.ty = "binary_expression"
    · simp only [hbin, if_true]
      rw [binOpLoop_eq_ite]
      by_cases hex : ∃ c ∈ n.children.toList,
          c.ty ∈ shortCircuitOps ∨ get_node_text src c ∈ shortCircuitOps
      · simp [hex]
      · simp [hex]
    · by_cases hbool : n.ty = "boolean_operator" <;> simp [hbin, hbool]
  · simp [hty]

theorem sum_map_ite_countP (l : List Node) (p : Node → Prop) [DecidablePred p] :
    (l.map (fun m => if p m then 1 else 0)).sum = l.countP (fun m => decide (p m)) := by
  induction l with
  | nil => simp
  | cons x xs ih =>
    by_cases hx : p x <;> simp [List.countP_cons, hx, ih, Nat.add_comm]

/-- calculate_complexity is exactly one plus the number of decision nodes
of the full pre-order walk of the subtree. -/
theorem calculate_complexity_eq (src lang : String) (n : Node) :
    calculate_complexity src lang n = 1 + decisionCount src n := by
  unfold calculate_complexity decisionCount
  rw [walkComplexity_eq]
  have hmap : (preorder n).map (nodeIncrement src)
      = (preorder n).map (fun m => if IsDecision src m then 1 else 0) :=
    List.map_congr_left (fun m _ => nodeIncrement_eq_ite src m)
  rw [hmap, sum_map_ite_countP (preorder n) (IsDecision src)]

/-- The complexity field of every record extract_function_details builds
is calculate_complexity of the definition node. -/
theorem extract_function_details_complexity (src lang filePath : String) (n : Node) :
    (extract_function_details src lang filePath n).complexity
      = calculate_complexity src lang n := rfl

/-- Reading the all_functions dict returns the value of the last
assignment to the key in iteration order, none when the key was never
assigned: the overwrite-last policy. -/
theorem dictGet_eq_last (entries : List (String × String)) (key : String) :
    dictGet entries key
      = ((entries.reverse.find? (fun p => p.1 == key)).map (fun p => p.2)) := by
  unfold dictGet
  induction entries using List.reverseRecOn with
  | nil => simp
  | append_singleton xs x ih =>
    simp only [List.foldl_append, List.foldl_cons, List.foldl_nil, ih,
      List.reverse_append, List.reverse_cons, List.reverse_nil, List.nil_append,
      List.cons_append, List.find?]
    rcases x with ⟨a, b⟩
    by_cases h : a = key
    · have hb : (a == key) = true := by simp [h]
      simp [h, hb]
    · have hb : (a == key) = false := by simp [h]
      simp [h, hb]

/-- extract_function_calls collects exactly the per-node contributions of
the pre-order walk, deduplicated. -/
theorem extract_function_calls_eq (src : String) (excludeNames : List String) (n : Node) :
    extract_function_calls src excludeNames n
      = ((preorder n).flatMap (callContrib src excludeNames)).dedup := by
  unfold extract_function_calls
  rw [preorderCollect_eq]

/-- extract_functions_detailed lists, in pre-order, the records of the
named function definition nodes. -/
theorem extract_functions_detailed_eq (src lang filePath : String) (root : Node) :
    extract_functions_detailed src lang filePath root
      = (preorder root).flatMap (functionRecordsAt src lang filePath) := by
  unfold extract_functions_detailed
  rw [preorderCollect_eq]


-- -------------------------------
-- Row arithmetic for the line-range round trip
-- -------------------------------

theorem lineStartPos_le (src : List Char) :
    ∀ b r : Nat, (src.take b).count '\n' = r → lineStartPos src r ≤ b := by
  induction src with
  | nil =>
    intro b r h
    cases r with
    | zero => simp [lineStartPos]
    | succ r => simp [lineStartPos]
  | cons ch rest ih =>
    intro b r h
    cases r with
    | zero => simp [lineStartPos]
    | succ r =>
      cases b with
      | zero => simp at h
      | succ b =>
        rw [List.take_succ_cons, List.count_cons] at h
        by_cases hch : ch = '\n'
        · rw [show lineStartPos (ch :: rest) (r + 1)
              = if ch = '\n' then 1 + lineStartPos rest r else 1 + lineStartPos rest (r + 1)
            from rfl]
          simp only [hch, if_true]
          have : (rest.take b).count '\n' = r := by simp [hch] at h; omega
          have := ih b r this
          omega
        · rw [show lineStartPos (ch :: rest) (r + 1)
              = if ch = '\n' then 1 + lineStartPos rest r else 1 + lineStartPos rest (r + 1)
            from rfl]
          simp only [hch, if_false]
          have : (rest.take b).count '\n' = r + 1 := by simp [hch] at h; omega
          have := ih b (r + 1) this
          omega

theorem le_lineEndPos (src : List Char) :
    ∀ b r : Nat, (src.take b).count '\n' = r → b ≤ src.length → b ≤ lineEndPos src r := by
  induction src with
  | nil =>
    intro b r h hb
    simp at hb
    simp [hb]
  | cons ch rest ih =>
    intro b r h hb
    cases b with
    | zero => simp
    | succ b =>
      rw [List.take_succ_cons, List.count_cons] at h
      simp only [List.length_cons] at hb
      cases r with
      | zero =>
        by_cases hch : ch = '\n'
        · exfalso
          simp [hch] at h
        · rw [show lineEndPos (ch :: rest) 0
              = if ch = '\n' then 0 else 1 + lineEndPos rest 0 from rfl]
          simp only [hch, if_false]
          have : (rest.take b).count '\n' = 0 := by simp [hch] at h; omega
          have := ih b 0 this (by omega)
          omega
      | succ r =>
        by_cases hch : ch = '\n'
        · rw [show lineEndPos (ch :: rest) (r + 1)
              = if ch = '\n' then 1 + lineEndPos rest r else 1 + lineEndPos rest (r + 1)
            from rfl]
          simp only [hch, if_true]
          have : (rest.take b).count '\n' = r := by simp [hch] at h; omega
          have := ih b r this (by omega)
          omega
        · rw [show lineEndPos (ch :: rest) (r + 1)
              = if ch = '\n' then 1 + lineEndPos rest r else 1 + lineEndPos rest (r + 1)
            from rfl]
          simp only [hch, if_false]
          have : (rest.take b).count '\n' = r + 1 := by simp [hch] at h; omega
          have := ih b (r + 1) this (by omega)
          omega

theorem take_drop_splice {α : Type} (l : List α) (a sb eb e : Nat)
    (h1 : a ≤ sb) (h2 : sb ≤ eb) (h3 : eb ≤ e) :
    (l.drop a).take (sb - a) ++ ((l.drop sb).take (eb - sb) ++ (l.drop eb).take (e - eb))
      = (l.drop a).take (e - a) := by
  have ha : e - a = (sb - a) + (e - sb) := by omega
  rw [ha, List.take_add]
  congr 1
  have hd : (l.drop a).drop (sb - a) = l.drop sb := by
    rw [List.drop_drop]
    congr 1
    omega
  rw [hd]
  have he : e - sb = (eb - sb) + (e - eb) := by omega
  rw [he, List.take_add]
  congr 1
  have hd2 : (l.drop sb).drop (eb - sb) = l.drop eb := by
    rw [List.drop_drop]
    congr 1
    omega
  rw [hd2]

-- -------------------------------
-- Characterization of find_function
-- -------------------------------

mutual

theorem findFunction_eq (targets : List String) (src fn : String) (n : Node)
    (h : ∀ m ∈ preorder n, isFnMatch targets src fn m = true → get_node_text src m ≠ "") :
    findFunction targets src fn n
      = ((preorder n).find? (isFnMatch targets src fn)).map (fun m => get_node_text src m) := by
  match n with
  | .mk t a b c d cs =>
    rw [findFunction, preorder]
    by_cases hm : isFnMatch targets src fn (.mk t a b c d cs) = true
    · simp [hm, List.find?]
    · have h2 : ∀ m ∈ preorderL cs,
          isFnMatch targets src fn m = true → get_node_text src m ≠ "" := by
        intro m hmem hq
        exact h m (by rw [preorder]; exact List.mem_cons_of_mem _ hmem) hq
      rw [findFunctionL_eq targets src fn cs h2]
      simp [List.find?, hm]

theorem findFunctionL_eq (targets : List String) (src fn : String) (cs : NodeList)
    (h : ∀ m ∈ preorderL cs, isFnMatch targets src fn m = true → get_node_text src m ≠ "") :
    findFunctionL targets src fn cs
      = ((preorderL cs).find? (isFnMatch targets src fn)).map
          (fun m => get_node_text src m) := by
  match cs with
  | .nil => rw [findFunctionL, preorderL]; simp
  | .cons child rest =>
    rw [findFunctionL, preorderL]
    have hchild := findFunction_eq targets src fn child (fun m hm hq =>
      h m (by rw [preorderL]; exact List.mem_append_left _ hm) hq)
    have hrest := findFunctionL_eq targets src fn rest (fun m hm hq =>
      h m (by rw [preorderL]; exact List.mem_append_right _ hm) hq)
    rw [List.find?_append]
    cases hfind : (preorder child).find? (isFnMatch targets src fn) with
    | none =>
      rw [hchild, hfind]
      simp [hrest]
    | some m =>
      have hq := List.find?_some hfind
      have hmem := List.mem_of_find?_eq_some hfind
      have hne : get_node_text src m ≠ "" :=
        h m (by rw [preorderL]; exact List.mem_append_left _ hmem) hq
      rw [hchild, hfind]
      simp [hne]

end

-- -------------------------------
-- Which branches of the call extractor can record an excluded name
-- -------------------------------

theorem Node.ty_mk (t : String) (a b c d : Nat) (cs : NodeList) :
    (Node.mk t a b c d cs).ty = t := rfl

theorem Node.children_mk (t : String) (a b c d : Nat) (cs : NodeList) :
    (Node.mk t a b c d cs).children = cs := rfl

theorem NodeList.toList_cons (n : Node) (ns : NodeList) :
    (NodeList.cons n ns).toList = n :: ns.toList := rfl

theorem NodeList.toList_nil : NodeList.nil.toList = ([] : List Node) := rfl

theorem callContrib_mem_method (src : String) (excludeNames : List String) (n : Node)
    (name : String) (hmem : name ∈ callContrib src excludeNames n)
    (hex : name ∈ excludeNames) : name ∈ methodCallContrib src n := by
  cases n with
  | mk t a b c d cs =>
    cases cs with
    | nil =>
      by_cases h1 : t = "call_expression" <;> by_cases h4 : t = "call" <;>
        simp [callContrib, Node.ty_mk, Node.children_mk, NodeList.toList_nil,
          h1, h4] at hmem
    | cons child restNL =>
      simp only [callContrib, Node.ty_mk, Node.children_mk, NodeList.toList_cons] at hmem
      simp only [methodCallContrib, Node.ty_mk, Node.children_mk, NodeList.toList_cons]
      by_cases h1 : t = "call_expression"
      · have hne : ¬ (t = "call") := by rw [h1]; decide
        rw [if_pos h1] at hmem
        rw [if_pos h1, if_neg hne, List.append_nil]
        by_cases h2 : child.ty = "identifier"
        · rw [if_pos h2] at hmem
          by_cases hc : get_node_text src child ∉ builtins ∧
              get_node_text src child ∉ excludeNames
          · rw [if_pos hc] at hmem
            simp only [List.mem_singleton] at hmem
            subst hmem
            exact absurd hex hc.2
          · rw [if_neg hc] at hmem
            simp at hmem
        · by_cases h3 : child.ty = "member_expression"
          · rw [if_neg h2, if_pos h3] at hmem
            rw [if_pos h3]
            exact hmem
          · rw [if_neg h2, if_neg h3] at hmem
            simp at hmem
      · by_cases h4 : t = "call"
        · rw [if_neg h1, if_pos h4] at hmem
          rw [if_neg h1, if_pos h4, List.nil_append]
          by_cases h2 : child.ty = "identifier"
          · rw [if_pos h2] at hmem
            by_cases hc : get_node_text src child ∉ builtins ∧
                get_node_text src child ∉ excludeNames
            · rw [if_pos hc] at hmem
              simp only [List.mem_singleton] at hmem
              subst hmem
              exact absurd hex hc.2
            · rw [if_neg hc] at hmem
              simp at hmem
          · by_cases h3 : child.ty = "attribute"
            · rw [if_neg h2, if_pos h3] at hmem
              rw [if_pos h3]
              exact hmem
            · rw [if_neg h2, if_neg h3] at hmem
              simp at hmem
        · rw [if_neg h1, if_neg h4] at hmem
          simp at hmem

-- -------------------------------
-- Claim theorems
-- -------------------------------

/-- Claim C1: for every extracted function, the recorded complexity equals
1 plus the number of qualifying decision nodes found by a full pre-order
walk of the entire subtree rooted at the definition node (nested inner
function definitions included, since decisionCount counts over the full
pre-order listing); hence complexity is always at least 1, and a function
whose subtree contains no decision node has complexity exactly 1. -/
theorem claim_C1 (src lang filePath : String) (root : Node) (r : FunctionRecord)
    (hr : r ∈ extract_functions_detailed src lang filePath root) :
    1 ≤ r.complexity ∧
    ∃ n ∈ preorder root, n.ty ∈ function_types lang ∧
      r.complexity = 1 + decisionCount src n ∧
      (decisionCount src n = 0 → r.complexity = 1) := by
  rw [extract_functions_detailed_eq] at hr
  rcases List.mem_flatMap.mp hr with ⟨n, hn, hrn⟩
  unfold functionRecordsAt at hrn
  by_cases hty : n.ty ∈ function_types lang
  · rw [if_pos hty] at hrn
    by_cases hname : (extract_function_details src lang filePath n).name ≠ ""
    · rw [if_pos hname] at hrn
      simp only [List.mem_singleton] at hrn
      have hc : r.complexity = calculate_complexity src lang n := by
        rw [hrn]
        exact extract_function_details_complexity src lang filePath n
      rw [calculate_complexity_eq] at hc
      refine ⟨by omega, n, hn, hty, hc, fun h0 => by omega⟩
    · rw [if_neg hname] at hrn
      simp at hrn
  · rw [if_neg hty] at hrn
    simp at hrn

/-- Witness for C1 at a concrete Python tree with one if statement:
complexity is 2 = 1 + 1 decision node. -/
theorem claim_C1_witness :
    1 ≤ c1Rec.complexity ∧
    ∃ n ∈ preorder c1Tree, n.ty ∈ function_types "py" ∧
      c1Rec.complexity = 1 + decisionCount c1Src n ∧
      (decisionCount c1Src n = 0 → c1Rec.complexity = 1) :=
  claim_C1 c1Src "py" "a.py" c1Tree c1Rec (by decide)

/-- Counterexample to claim C2 as stated: in the function f of c2Src, the
body calls f through this.f(), and the extracted record for f has name f
with f among its own calls, because the member-expression branch of the
call extractor never consults the exclusion set. -/
theorem claim_C2_counterexample :
    ∃ r ∈ extract_functions_detailed c2Src "js" "a.js" c2Tree,
      r.name = "f" ∧ r.name ∈ r.calls := by decide

/-- Claim C2 amended: the exclusion of the enclosing function name applies
only to direct bare-identifier calls; whenever an excluded name (in
particular the enclosing function name) appears in the extracted calls, it
was recorded by the member-expression or attribute branch of some method
call node in the subtree (for example this.f() inside f records f), while
direct bare-identifier self-calls never contribute it. -/
theorem claim_C2 (src : String) (excludeNames : List String) (n : Node) (name : String)
    (hex : name ∈ excludeNames)
    (hmem : name ∈ extract_function_calls src excludeNames n) :
    ∃ m ∈ preorder n, name ∈ methodCallContrib src m := by
  rw [extract_function_calls_eq, List.mem_dedup] at hmem
  rcases List.mem_flatMap.mp hmem with ⟨m, hm, hc⟩
  exact ⟨m, hm, callContrib_mem_method src excludeNames m name hc hex⟩

/-- Witness for the amended C2 at the concrete this.f() tree. -/
theorem claim_C2_witness :
    ∃ m ∈ preorder c2Tree, "f" ∈ methodCallContrib c2Src m :=
  claim_C2 c2Src ["f"] c2Tree "f" (by decide) (by decide)

/-- Counterexample to claim C3 as stated: the one-level Python attribute
call a.b() records the object a, not the rightmost member b, because the
attribute branch takes the first non-builtin identifier child of the
attribute node. -/
theorem claim_C3_counterexample :
    extract_function_calls c3Src [] c3Call = ["a"] ∧
    "b" ∉ extract_function_calls c3Src [] c3Call := by decide

/-- Claim C3 amended: extract_function_calls records exactly the per-node
contributions of the pre-order walk, deduplicated; for a JavaScript
member-expression call the contribution is the property identifier (the
rightmost name), subject to the builtin denylist; for a Python attribute
call the contribution is the first direct identifier child of the
attribute node not in the denylist, which is the rightmost member only
when the object is itself an attribute chain (a.b.c() records c) and is
the bare object for a one-level call (a.b() records a). -/
theorem claim_C3 :
    (∀ (src : String) (excludeNames : List String) (n : Node),
      extract_function_calls src excludeNames n
        = ((preorder n).flatMap (callContrib src excludeNames)).dedup)
    ∧ (∀ (src : String) (excludeNames : List String) (obj dt prop argl : Node)
        (a1 b1 c1 d1 a2 b2 c2 d2 : Nat),
        prop.ty = "property_identifier" → obj.ty ≠ "property_identifier" →
        dt.ty ≠ "property_identifier" → get_node_text src prop ∉ builtins →
        callContrib src excludeNames
          (.mk "call_expression" a1 b1 c1 d1
            (.ofList [.mk "member_expression" a2 b2 c2 d2 (.ofList [obj, dt, prop]),
                      argl]))
          = [get_node_text src prop])
    ∧ (∀ (src : String) (excludeNames : List String) (obj dt prop argl : Node)
        (a1 b1 c1 d1 a2 b2 c2 d2 : Nat),
        obj.ty = "attribute" → dt.ty ≠ "identifier" → prop.ty = "identifier" →
        get_node_text src prop ∉ builtins →
        callContrib src excludeNames
          (.mk "call" a1 b1 c1 d1
            (.ofList [.mk "attribute" a2 b2 c2 d2 (.ofList [obj, dt, prop]), argl]))
          = [get_node_text src prop])
    ∧ (∀ (src : String) (excludeNames : List String) (obj dt prop argl : Node)
        (a1 b1 c1 d1 a2 b2 c2 d2 : Nat),
        obj.ty = "identifier" → get_node_text src obj ∉ builtins →
        callContrib src excludeNames
          (.mk "call" a1 b1 c1 d1
            (.ofList [.mk "attribute" a2 b2 c2 d2 (.ofList [obj, dt, prop]), argl]))
          = [get_node_text src obj]) := by
  refine ⟨fun src ex n => extract_function_calls_eq src ex n, ?_, ?_, ?_⟩
  · intro src ex obj dt prop argl a1 b1 c1 d1 a2 b2 c2 d2 hp ho hd hb
    simp [callContrib, Node.ty_mk, Node.children_mk, NodeList.toList_ofList,
      hp, ho, hd, hb]
  · intro src ex obj dt prop argl a1 b1 c1 d1 a2 b2 c2 d2 ho hd hp hb
    have hdb : (dt.ty == "identifier") = false := by simp [hd]
    simp [callContrib, Node.ty_mk, Node.children_mk, NodeList.toList_ofList,
      List.find?, ho, hdb, hp, hb]
  · intro src ex obj dt prop argl a1 b1 c1 d1 a2 b2 c2 d2 ho hb
    simp [callContrib, Node.ty_mk, Node.children_mk, NodeList.toList_ofList,
      List.find?, ho, hb]

/-- Witness for the amended C3 at the concrete chain a.b.c(): the
rightmost member c is recorded. -/
theorem claim_C3_witness : callContrib c3wSrc [] c3wCall = ["c"] :=
  (claim_C3.2.2.1 c3wSrc [] c3wInner (.mk "." 3 4 0 0 .nil) c3wIdentC c3wArgl
    0 7 0 0 0 5 0 0 (by decide) (by decide) (by decide) (by decide)).trans (by decide)

/-- Counterexample to claim C4 as stated: for a one-line JavaScript file
with trailing code after the function, the line slice for the recorded
line range is the whole line, which differs from the recorded source text
of the definition. -/
theorem claim_C4_counterexample :
    ∃ r ∈ extract_functions_detailed c4Src "js" "a.js" c4Tree,
      r.code.data ≠ specLineSlice c4Src.data r.startLine r.endLine := by decide

/-- Claim C4 amended: for a definition node whose recorded rows are
consistent with its byte span (rows count the newlines before the span
ends, the span is ordered and inside the text, as for every real
tree-sitter node), slicing the source by the records 1-indexed inclusive
line range contains the recorded source text as a contiguous substring;
byte-for-byte equality fails in general (see the counterexample), since
the slice also carries the text before the definition on its first line
and after it on its last line. -/
theorem claim_C4 (src lang filePath : String) (n : Node)
    (h1 : n.startRow = nlCount src.data n.startByte)
    (h2 : n.endRow = nlCount src.data n.endByte)
    (h3 : n.startByte ≤ n.endByte) (h4 : n.endByte ≤ src.data.length) :
    ∃ u v : List Char,
      u ++ (extract_function_details src lang filePath n).code.data ++ v
        = specLineSlice src.data (extract_function_details src lang filePath n).startLine
            (extract_function_details src lang filePath n).endLine := by
  have hcode : (extract_function_details src lang filePath n).code.data
      = (src.data.drop n.startByte).take (n.endByte - n.startByte) := rfl
  have hs : (extract_function_details src lang filePath n).startLine = n.startRow + 1 := rfl
  have he : (extract_function_details src lang filePath n).endLine = n.endRow + 1 := rfl
  rw [hcode, hs, he]
  unfold specLineSlice
  simp only [Nat.add_sub_cancel]
  have ha : lineStartPos src.data n.startRow ≤ n.startByte :=
    lineStartPos_le src.data n.startByte n.startRow (by rw [h1]; rfl)
  have hb : n.endByte ≤ lineEndPos src.data n.endRow :=
    le_lineEndPos src.data n.endByte n.endRow (by rw [h2]; rfl) h4
  refine ⟨(src.data.drop (lineStartPos src.data n.startRow)).take
            (n.startByte - lineStartPos src.data n.startRow),
          (src.data.drop n.endByte).take (lineEndPos src.data n.endRow - n.endByte), ?_⟩
  rw [List.append_assoc]
  exact take_drop_splice src.data (lineStartPos src.data n.startRow) n.startByte
    n.endByte (lineEndPos src.data n.endRow) ha h3 hb

/-- Witness for the amended C4 at an indented Python definition: the line
slice carries the leading indentation around the recorded text. -/
theorem claim_C4_witness :
    ∃ u v : List Char,
      u ++ (extract_function_details c4wSrc "py" "a.py" c4wNode).code.data ++ v
        = specLineSlice c4wSrc.data
            (extract_function_details c4wSrc "py" "a.py" c4wNode).startLine
            (extract_function_details c4wSrc "py" "a.py" c4wNode).endLine :=
  claim_C4 c4wSrc "py" "a.py" c4wNode (by decide) (by decide) (by decide) (by decide)

/-- Claim C5: reading the bare-name index gives the value of the last
assignment written while iterating all FileRecords and their functions in
discovery order (overwrite-last dict semantics), and every emitted
CallEdge has as target file exactly the owner the index returns for the
called name, i.e. the last-written owner when the name is duplicated. -/
theorem claim_C5 (files : List FileRecord) :
    (∀ key, dictGet (fnIndex files) key
        = ((fnIndex files).reverse.find? (fun p => p.1 == key)).map (fun p => p.2))
    ∧ ∀ e ∈ buildEdges files, ∃ callName,
        dictGet (fnIndex files) callName = some e.targetFile ∧
        e.target = e.targetFile ++ "-" ++ callName := by
  constructor
  · intro key
    exact dictGet_eq_last (fnIndex files) key
  · intro e he
    rcases List.mem_flatMap.mp he with ⟨fd, hfd, he2⟩
    rcases List.mem_flatMap.mp he2 with ⟨f, hf, he3⟩
    rcases List.mem_filterMap.mp he3 with ⟨callName, hcall, hedge⟩
    cases hd : dictGet (fnIndex files) callName with
    | none => unfold edgeFor at hedge; rw [hd] at hedge; simp at hedge
    | some owner =>
      rw [edgeFor_some files fd f callName owner hd] at hedge
      by_cases how : owner ≠ fd.filePath
      · rw [if_pos how] at hedge
        simp only [Option.some.injEq] at hedge
        subst hedge
        exact ⟨callName, hd, rfl⟩
      · rw [if_neg how] at hedge
        simp at hedge

/-- Witness for C5 at three concrete files with a duplicated name: the
edge emitted for the caller resolves to the last-written owner. -/
theorem claim_C5_witness :
    (dictGet (fnIndex c5Files) "helper"
        = ((fnIndex c5Files).reverse.find? (fun p => p.1 == "helper")).map (fun p => p.2))
    ∧ ∃ callName, dictGet (fnIndex c5Files) callName = some c5Edge.targetFile ∧
        c5Edge.target = c5Edge.targetFile ++ "-" ++ callName :=
  ⟨(claim_C5 c5Files).1 "helper", (claim_C5 c5Files).2 c5Edge (by decide)⟩

/-- Claim C6: every emitted CallEdge connects different files, and the
per-call emission yields nothing when the called name is absent from the
index or resolves to the calling file itself. -/
theorem claim_C6 (files : List FileRecord) :
    (∀ e ∈ buildEdges files, e.sourceFile ≠ e.targetFile)
    ∧ (∀ fd f callName, dictGet (fnIndex files) callName = none →
        edgeFor files fd f callName = none)
    ∧ (∀ fd f callName, dictGet (fnIndex files) callName = some fd.filePath →
        edgeFor files fd f callName = none) := by
  refine ⟨?_, ?_, ?_⟩
  · intro e he
    rcases List.mem_flatMap.mp he with ⟨fd, hfd, he2⟩
    rcases List.mem_flatMap.mp he2 with ⟨f, hf, he3⟩
    rcases List.mem_filterMap.mp he3 with ⟨callName, hcall, hedge⟩
    cases hd : dictGet (fnIndex files) callName with
    | none => unfold edgeFor at hedge; rw [hd] at hedge; simp at hedge
    | some owner =>
      rw [edgeFor_some files fd f callName owner hd] at hedge
      by_cases how : owner ≠ fd.filePath
      · rw [if_pos how] at hedge
        simp only [Option.some.injEq] at hedge
        subst hedge
        exact fun hcontra => how hcontra.symm
      · rw [if_neg how] at hedge
        simp at hedge
  · intro fd f callName hd
    unfold edgeFor
    rw [hd]
  · intro fd f callName hd
    unfold edgeFor
    rw [hd]
    simp

/-- Witness for C6 at two concrete files: the emitted edge is cross-file,
an unknown name emits nothing, and a same-file name emits nothing. -/
theorem claim_C6_witness :
    c6Edge.sourceFile ≠ c6Edge.targetFile ∧
    edgeFor c6Files c6FileX c6CallerFn "zzz" = none ∧
    edgeFor c6Files c6FileX c6CallerFn "p" = none :=
  ⟨(claim_C6 c6Files).1 c6Edge (by decide),
   (claim_C6 c6Files).2.1 c6FileX c6CallerFn "zzz" (by decide),
   (claim_C6 c6Files).2.2 c6FileX c6CallerFn "p" (by decide)⟩

/-- Claim C7: analyze_file_detailed returns None and leaves the parser
state untouched whenever the extension is unsupported, the file is
unreadable (open raises and read_file yields the empty string), the
content is empty or whitespace-only, or no grammar exists for the detected
language; totality of the model reflects that none of these conditions
raises out of the core. -/
theorem claim_C7 (parse : TSLang → String → Node) (relpath : String → String → String)
    (fs : String → Option String) (st : ParserState) (path basePath : String) :
    (detect_language path = none →
      analyze_file_detailed parse relpath fs st path basePath = (st, none))
    ∧ (fs path = none →
      analyze_file_detailed parse relpath fs st path basePath = (st, none))
    ∧ (isBlank (read_file fs path) = true →
      analyze_file_detailed parse relpath fs st path basePath = (st, none))
    ∧ (∀ lang, detect_language path = some lang → getLanguageForParser lang = none →
      analyze_file_detailed parse relpath fs st path basePath = (st, none)) := by
  refine ⟨?_, ?_, ?_, ?_⟩
  · intro h
    simp [analyze_file_detailed, h]
  · intro h
    have hb : isBlank (read_file fs path) = true := by
      rw [read_file, h]
      rfl
    cases hdet : detect_language path with
    | none => simp [analyze_file_detailed, hdet]
    | some lang => simp [analyze_file_detailed, hdet, hb]
  · intro hb
    cases hdet : detect_language path with
    | none => simp [analyze_file_detailed, hdet]
    | some lang => simp [analyze_file_detailed, hdet, hb]
  · intro lang hdet hgram
    by_cases hb : isBlank (read_file fs path) = true
    · simp [analyze_file_detailed, hdet, hb]
    · simp [analyze_file_detailed, hdet, hb, hgram]

/-- Witness for C7 at a concrete unsupported path over an unreadable
filesystem. -/
theorem claim_C7_witness :
    analyze_file_detailed parse0 relp0 fs0 { language := none } "README.md" ""
      = ({ language := none }, none) :=
  (claim_C7 parse0 relp0 fs0 { language := none } "README.md" "").1 (by decide)

/-- Claim C8: get_function_code returns None on an unsupported, unreadable
or blank file; find_function returns the text of the first function
definition node in pre-order whose declared name matches (so duplicate
in-file names yield only the first match, and no match yields None),
provided every matching node has nonempty text, which holds for every real
parse; and on the success path get_function_code returns exactly
find_function applied to the parsed tree. -/
theorem claim_C8 :
    (∀ (parse : TSLang → String → Node) (fs : String → Option String) (st : ParserState)
      (filePath functionName : String),
      (detect_language filePath = none ∨ isBlank (read_file fs filePath) = true) →
        get_function_code parse fs st filePath functionName = (st, none))
    ∧ (∀ (targets : List String) (src functionName : String) (root : Node),
        (∀ m ∈ preorder root, isFnMatch targets src functionName m = true →
          get_node_text src m ≠ "") →
        findFunction targets src functionName root
          = ((preorder root).find? (isFnMatch targets src functionName)).map
              (fun m => get_node_text src m))
    ∧ (∀ (parse : TSLang → String → Node) (fs : String → Option String) (st : ParserState)
        (filePath functionName lang : String) (language : TSLang),
        detect_language filePath = some lang → getLanguageForParser lang = some language →
        isBlank (read_file fs filePath) = false →
        get_function_code parse fs st filePath functionName
          = ({ language := some language },
             findFunction (function_types lang) (read_file fs filePath) functionName
               (parse language (read_file fs filePath)))) := by
  refine ⟨?_, ?_, ?_⟩
  · intro parse fs st filePath functionName h
    rcases h with h | h
    · simp [get_function_code, h]
    · cases hdet : detect_language filePath with
      | none => simp [get_function_code, hdet]
      | some lang => simp [get_function_code, hdet, h]
  · intro targets src functionName root h
    exact findFunction_eq targets src functionName root h
  · intro parse fs st filePath functionName lang language hdet hgram hb
    simp [get_function_code, hdet, hgram, hb]

/-- Witness for C8 at a file with two definitions named g: the first one
in pre-order is returned. -/
theorem claim_C8_witness :
    findFunction (function_types "py") c8Src "g" c8Tree = some "def g(): return 1" :=
  (claim_C8.2.1 (function_types "py") c8Src "g" c8Tree (by decide)).trans (by decide)

/-- Claim C9 concerns the code bug: the source keeps one module-global
parser and reassigns its language attribute on every analysis call
(parser.language = language, analyzer.py line 570), so per-file analysis
does mutate shared parser configuration, contradicting the stated
requirement; analyzing a Python file overwrites a previously bound
JavaScript grammar in the shared state. -/
theorem claim_C9 :
    (analyze_file_detailed parse0 relp0 fs9 { language := some TSLang.js } "a.py" "").1
        = { language := some TSLang.py }
    ∧ (analyze_file_detailed parse0 relp0 fs9 { language := some TSLang.js } "a.py" "").1
        ≠ { language := some TSLang.js } := by decide

/-- Claim C10: every path with extension .ts or .tsx takes the JavaScript
grammar path (detect_language yields js and the parser state after a
successful analysis holds the JavaScript grammar), while the emitted
record reports typescript as its language; the grammar table has no
TypeScript entry and detect_language never yields a ts tag. -/
theorem claim_C10 (path : String)
    (h : pyExtLower path = ".ts" ∨ pyExtLower path = ".tsx") :
    detect_language path = some "js"
    ∧ getLanguageForParser "js" = some TSLang.js
    ∧ supportedExtGet (pyExtLower path) = some "typescript"
    ∧ (∀ (parse : TSLang → String → Node) (relpath : String → String → String)
        (fs : String → Option String) (st : ParserState) (basePath : String)
        (fr : FileRecord),
        (analyze_file_detailed parse relpath fs st path basePath).2 = some fr →
          fr.language = "typescript"
          ∧ (analyze_file_detailed parse relpath fs st path basePath).1
              = { language := some TSLang.js })
    ∧ getLanguageForParser "ts" = none ∧ getLanguageForParser "typescript" = none
    ∧ ∀ q : String, detect_language q ≠ some "ts" := by
  have hdet : detect_language path = some "js" := by
    rcases h with h | h <;> simp [detect_language, h]
  have hsup : supportedExtGet (pyExtLower path) = some "typescript" := by
    rcases h with h | h <;> rw [h] <;> decide
  refine ⟨hdet, by decide, hsup, ?_, by decide, by decide, ?_⟩
  · intro parse relpath fs st basePath fr hsome
    by_cases hb : isBlank (read_file fs path) = true
    · simp [analyze_file_detailed, hdet, hb] at hsome
    · rw [Bool.not_eq_true] at hb
      rw [analyze_file_detailed_success parse relpath fs st path basePath "js" TSLang.js
        hdet (by decide) hb] at hsome
      simp only [Option.some.injEq] at hsome
      subst hsome
      constructor
      · simp [hsup]
      · rw [analyze_file_detailed_success parse relpath fs st path basePath "js" TSLang.js
          hdet (by decide) hb]
  · intro q hq
    simp only [detect_language] at hq
    split_ifs at hq <;> simp at hq

/-- Witness for C10 at the concrete path app.ts over a filesystem holding
one small TypeScript file. -/
theorem claim_C10_witness :
    detect_language "app.ts" = some "js" ∧ fr10.language = "typescript" :=
  have h := claim_C10 "app.ts" (Or.inl (by decide))
  ⟨h.1, (h.2.2.2.1 parse0 relp0 fs10 { language := none } "" fr10 (by decide)).1⟩
